import Mathlib

/-!
Shallow embedding of the pump-failure extraction pipeline of `app.py`
(repository NLP_Plant).  The Python program walks a batch of `.docx`
shift reports, tracks a per-document (date, shift) context, extracts
pump identifiers, filters, groups and tags records, and returns one
table.  Every stage is translated into an executable Lean definition:

* the three regular expressions (`DATE_REGEX`, `SHIFT_REGEX`,
  `PUMP_REGEX`) become dedicated character-level matchers with Python
  `re.search` / `re.findall` semantics (leftmost match, greedy
  quantifiers, IGNORECASE, word boundaries);
* `pd.to_datetime(..., errors="coerce")` on the captured strings
  becomes `parseDate` (dateutil semantics: month-first, day-first
  fallback when the first field cannot be a month, `none` when
  invalid);
* the dataframe stages (`dropna`, the per-row pump-set explosion,
  `groupby` with sorted keys and `" | "`-joined text, keyword tagging)
  become list functions;
* the places where the Python raises — opening an unreadable document,
  and the column accesses / `groupby` on an empty `DataFrame` — are
  modelled as `Except.error`.
-/

/- ### Characters and generic list helpers -/

def isWordChar (c : Char) : Bool := c.isAlphanum || c = '_'

def listPrefixOf : List Char → List Char → Bool
  | [], _ => true
  | _ :: _, [] => false
  | a :: as, b :: bs => a = b && listPrefixOf as bs

def listInfixOf (pat : List Char) : List Char → Bool
  | [] => pat.isEmpty
  | c :: cs => listPrefixOf pat (c :: cs) || listInfixOf pat cs

def listSuffixOf (suf l : List Char) : Bool := listPrefixOf suf.reverse l.reverse

/-- First-occurrence deduplication (the observable content of Python's
`set(...)` over the raw pump spellings of one block, and of the distinct
group keys of `groupby`). -/
def dedupFirst [DecidableEq α] : List α → List α
  | [] => []
  | a :: as => a :: (dedupFirst as).filter (fun x => decide (x ≠ a))

/- ### Text normalizers (HELPERS section of app.py) -/

def lowerList (s : String) : List Char := s.toList.map Char.toLower

def containsLC (s : String) (pat : List Char) : Bool := listInfixOf pat (lowerList s)

/-- `normalize_shift`: lower-case, then the "day" test before the
"night" test; anything else gives `None`. -/
def normalize_shift (s : String) : Option String :=
  if containsLC s ['d', 'a', 'y'] then some "Day"
  else if containsLC s ['n', 'i', 'g', 'h', 't'] then some "Night"
  else none

/-- `normalize_pump`: upper-case, then drop every hyphen and space. -/
def normalize_pump (s : String) : String :=
  String.mk ((s.toList.map Char.toUpper).filter (fun c => !(c = '-' || c = ' ')))

/-- One pass of `re.sub(r"\s+", " ", text.lower())`: lower-case while
collapsing every whitespace run to a single space.  The boolean argument
records whether the previous character was part of a whitespace run. -/
def collapseLowerAux : Bool → List Char → List Char
  | _, [] => []
  | prev, c :: cs =>
    if c.isWhitespace then
      if prev then collapseLowerAux true cs else ' ' :: collapseLowerAux true cs
    else c.toLower :: collapseLowerAux false cs

/-- `normalize_text` (the string is never the pandas missing value in
this embedding, so the `pd.isna` branch is not reachable). -/
def normalize_text (s : String) : String :=
  String.mk (collapseLowerAux false s.toList)

/- ### The date matcher, DATE_REGEX of app.py: the literal "date", an
optional colon or hyphen surrounded by optional whitespace, then the
capture: one or two digits, a hyphen or slash, one or two digits, a
hyphen or slash, four digits; searched case-insensitively. -/

/-- Case-insensitive literal match; returns the consumed original
characters and the rest.  The pattern is given in lower case. -/
def matchLitCap (pat : List Char) (cs : List Char) : Option (List Char × List Char) :=
  match pat, cs with
  | [], rest => some ([], rest)
  | _ :: _, [] => none
  | l :: ls, c :: cs' =>
    if c.toLower = l then
      match matchLitCap ls cs' with
      | some (cap, rest) => some (c :: cap, rest)
      | none => none
    else none

def skipWs : List Char → List Char
  | [] => []
  | c :: cs => if c.isWhitespace then skipWs cs else c :: cs

/-- The optional label separator `[:\-]?`.  No whitespace character is
`:` or `-` and no digit is either, so the greedy choice never needs to
be undone and consuming it when present is exact. -/
def skipOptSep : List Char → List Char
  | [] => []
  | c :: cs => if c = ':' || c = '-' then cs else c :: cs

def isDateSep (c : Char) : Bool := c = '-' || c = '/'

/-- Greedy one-or-two digits.  Backtracking from two digits to one is
never needed by the callers: the fallback would require the second
digit to be read as a hyphen or slash, which no digit is. -/
def takeDigits2 : List Char → Option (List Char × List Char)
  | [] => none
  | [c] => if c.isDigit then some ([c], []) else none
  | c :: d :: rest =>
    if c.isDigit then
      if d.isDigit then some ([c, d], rest) else some ([c], d :: rest)
    else none

def take4Digits : List Char → Option (List Char × List Char)
  | a :: b :: c :: d :: rest =>
    if a.isDigit && b.isDigit && c.isDigit && d.isDigit then some ([a, b, c, d], rest)
    else none
  | _ => none

/-- Attempt the whole date pattern at one position; on success return
the capture group (the numeric day-month-year token) exactly as it is
written in the text. -/
def dateAt (cs : List Char) : Option (List Char) :=
  match matchLitCap ['d', 'a', 't', 'e'] cs with
  | none => none
  | some (_, r1) =>
    match takeDigits2 (skipWs (skipOptSep (skipWs r1))) with
    | none => none
    | some (d1, r5) =>
      match r5 with
      | s1 :: r6 =>
        if isDateSep s1 then
          match takeDigits2 r6 with
          | none => none
          | some (d2, r7) =>
            match r7 with
            | s2 :: r8 =>
              if isDateSep s2 then
                match take4Digits r8 with
                | none => none
                | some (d4, _) => some (d1 ++ s1 :: d2 ++ s2 :: d4)
              else none
            | [] => none
        else none
      | [] => none

/-- `re.search`: leftmost position at which the date pattern matches. -/
def searchDate : List Char → Option (List Char)
  | [] => none
  | c :: cs =>
    match dateAt (c :: cs) with
    | some cap => some cap
    | none => searchDate cs

def searchDateStr (s : String) : Option String := (searchDate s.toList).map String.mk

/- ### The shift matcher:
`re.search(r"shift\s*[:\-]?\s*(day[s]?|night[s]?)", text, re.IGNORECASE)` -/

/-- The capture group `day[s]?|night[s]?` at one position (alternation
tries "day" first, `[s]?` is greedy). -/
def shiftWord (cs : List Char) : Option (List Char) :=
  match matchLitCap ['d', 'a', 'y'] cs with
  | some (cap, rest) =>
    match rest with
    | c :: _ => if c.toLower = 's' then some (cap ++ [c]) else some cap
    | [] => some cap
  | none =>
    match matchLitCap ['n', 'i', 'g', 'h', 't'] cs with
    | some (cap, rest) =>
      match rest with
      | c :: _ => if c.toLower = 's' then some (cap ++ [c]) else some cap
      | [] => some cap
    | none => none

def shiftAt (cs : List Char) : Option (List Char) :=
  match matchLitCap ['s', 'h', 'i', 'f', 't'] cs with
  | none => none
  | some (_, r1) => shiftWord (skipWs (skipOptSep (skipWs r1)))

def searchShift : List Char → Option (List Char)
  | [] => none
  | c :: cs =>
    match shiftAt (c :: cs) with
    | some cap => some cap
    | none => searchShift cs

def searchShiftStr (s : String) : Option String := (searchShift s.toList).map String.mk

/- ### The pump matcher:
`re.findall(r"\bP[- ]?\d+(?:[- ]?[A-Z])?\b", text, re.IGNORECASE)` -/

def isPumpSep (c : Char) : Bool := c = '-' || c = ' '

/-- Greedy `\d+` (giving digits back never helps: the following
alternatives all start with a non-digit or demand a word boundary
between two digits). -/
def takeDigits : List Char → List Char × List Char
  | [] => ([], [])
  | c :: cs =>
    if c.isDigit then
      match takeDigits cs with
      | (ds, r) => (c :: ds, r)
    else ([], c :: cs)

/-- Word-boundary test for a position given the list of remaining
characters: the previous matched character is a word character, so the
boundary holds exactly when the next character is absent or non-word. -/
def boundaryAt : List Char → Bool
  | [] => true
  | c :: _ => !isWordChar c

/-- The whole pump pattern at one position.  `prev` is the character
just before the position (`none` at the start of the text) for the
leading `\b`.  Returns the matched text and the rest of the input. -/
def pumpAt (prev : Option Char) (cs : List Char) : Option (List Char × List Char) :=
  match prev with
  | some p => if isWordChar p then none else pumpBody cs
  | none => pumpBody cs
where
  pumpBody : List Char → Option (List Char × List Char)
    | [] => none
    | c :: r1 =>
      if c.toLower = 'p' then
        let (optSep, r2) : List Char × List Char :=
          match r1 with
          | d :: rr =>
            if isPumpSep d then
              match rr with
              | e :: _ => if e.isDigit then ([d], rr) else ([], r1)
              | [] => ([], r1)
            else ([], r1)
          | [] => ([], r1)
        match r2 with
        | e :: _ =>
          if e.isDigit then
            match takeDigits r2 with
            | (ds, r3) =>
              match r3 with
              | f :: g :: r4 =>
                if isPumpSep f && g.isAlpha && boundaryAt r4 then
                  some (c :: optSep ++ ds ++ [f, g], r4)
                else if f.isAlpha && boundaryAt (g :: r4) then
                  some (c :: optSep ++ ds ++ [f], g :: r4)
                else if boundaryAt (f :: g :: r4) then
                  some (c :: optSep ++ ds, f :: g :: r4)
                else none
              | [f] =>
                if f.isAlpha then some (c :: optSep ++ ds ++ [f], [])
                else if boundaryAt [f] then some (c :: optSep ++ ds, [f])
                else none
              | [] => some (c :: optSep ++ ds, [])
          else none
        | [] => none
      else none

/-- `re.findall`: scan left to right, non-overlapping; continue after
each match.  The fuel starts at the length of the text and each step
consumes at least one character. -/
def findPumpsAux : Nat → Option Char → List Char → List (List Char)
  | 0, _, _ => []
  | _ + 1, _, [] => []
  | n + 1, prev, c :: cs =>
    match pumpAt prev (c :: cs) with
    | some (m, rest) => m :: findPumpsAux n (some (m.getLastD c)) rest
    | none => findPumpsAux n (some c) cs

def findPumps (cs : List Char) : List (List Char) := findPumpsAux cs.length none cs

/-- The distinct raw pump spellings of one block, `set(re.findall(...))`
ordered by first occurrence (within one block two spellings of the same
pump produce identical records, so this order is not observable in the
final table). -/
def pumpsOf (t : String) : List String := dedupFirst ((findPumps t.toList).map String.mk)

/- ### Date parsing:
`pd.to_datetime(raw_df["date"], errors="coerce")` on the captured
strings.  pandas infers the field order the way dateutil does: the
first numeric field is taken as the month when it can be one, otherwise
day-first is tried; an impossible date coerces to NaT (here `none`). -/

structure Date where
  year : Nat
  month : Nat
  day : Nat
deriving Repr, DecidableEq

def isLeap (y : Nat) : Bool := (y % 4 == 0 && y % 100 != 0) || y % 400 == 0

def daysInMonth (m y : Nat) : Nat :=
  if m == 2 then (if isLeap y then 29 else 28)
  else if m == 4 || m == 6 || m == 9 || m == 11 then 30
  else 31

def readNatAux : List Char → Nat → Nat × List Char
  | [], acc => (acc, [])
  | c :: cs, acc =>
    if c.isDigit then readNatAux cs (acc * 10 + (c.toNat - 48)) else (acc, c :: cs)

/-- Split a captured token into its three numeric fields; `none` unless
the whole string is digits-separator-digits-separator-digits. -/
def splitDMY (cs : List Char) : Option (Nat × Nat × Nat) :=
  match cs with
  | [] => none
  | c :: _ =>
    if c.isDigit then
      match readNatAux cs 0 with
      | (a, s1 :: r2) =>
        if isDateSep s1 then
          match r2 with
          | [] => none
          | c2 :: _ =>
            if c2.isDigit then
              match readNatAux r2 0 with
              | (b, s2 :: r4) =>
                if isDateSep s2 then
                  match r4 with
                  | [] => none
                  | c3 :: _ =>
                    if c3.isDigit then
                      match readNatAux r4 0 with
                      | (y, []) => some (a, b, y)
                      | (_, _ :: _) => none
                    else none
                else none
              | (_, []) => none
            else none
        else none
      | (_, []) => none
    else none

def parseDate (s : String) : Option Date :=
  match splitDMY s.toList with
  | none => none
  | some (a, b, y) =>
    if 1 ≤ a && a ≤ 12 && 1 ≤ b && b ≤ daysInMonth a y then some ⟨y, a, b⟩
    else if 1 ≤ b && b ≤ 12 && 1 ≤ a && a ≤ daysInMonth b y then some ⟨y, b, a⟩
    else none

/- ### Data model: documents, blocks and records -/

/-- A content block of a document body: a paragraph, or a table kept as
its rows of cell texts (the walker flattens each row into one text). -/
inductive Block where
  | para (text : String)
  | table (rows : List (List String))
deriving Repr, DecidableEq

/-- Python's `str.strip()`: drop leading and trailing whitespace. -/
def pyStrip (s : String) : String :=
  String.mk ((skipWs ((skipWs s.toList).reverse)).reverse)

/-- The text units a block contributes: a paragraph is stripped and
skipped when empty; every table row becomes its stripped cell texts
joined by one space (no emptiness check for rows). -/
def blockTexts : Block → List String
  | .para s => if pyStrip s = "" then [] else [pyStrip s]
  | .table rows => rows.map (fun row => String.intercalate " " (row.map pyStrip))

def docTexts (bs : List Block) : List String :=
  bs.foldr (fun b acc => blockTexts b ++ acc) []

/-- The body of a file on disk: either a document python-docx can open,
or one it raises on. -/
inductive DocContent where
  | valid (blocks : List Block)
  | unreadable
deriving Repr, DecidableEq

structure DocFile where
  name : String
  content : DocContent
deriving Repr, DecidableEq

/-- The per-document extraction context, `current_date` and
`current_shift` of `load_data` (the date field holds the raw captured
string; it is only parsed later, in bulk). -/
structure Ctx where
  date : Option String
  shift : Option String
deriving Repr, DecidableEq

structure RawRecord where
  date : Option String
  shift : Option String
  raw_text : String
deriving Repr, DecidableEq

/-- Processing of one text unit: run the date matcher and on a match
overwrite `current_date` with the raw capture; run the shift matcher
and on a match overwrite `current_shift` with the normalized capture;
then append a record carrying the current context and the text. -/
def stepText (c : Ctx) (t : String) : Ctx × RawRecord :=
  let c1 : Ctx :=
    match searchDateStr t with
    | some cap => { c with date := some cap }
    | none => c
  let c2 : Ctx :=
    match searchShiftStr t with
    | some cap => { c1 with shift := normalize_shift cap }
    | none => c1
  (c2, ⟨c2.date, c2.shift, t⟩)

def foldTexts (c : Ctx) : List String → Ctx × List RawRecord
  | [] => (c, [])
  | t :: ts =>
    let p := stepText c t
    let q := foldTexts p.1 ts
    (q.1, p.2 :: q.2)

/-- One document's records; the context starts unknown for every
document (`current_date, current_shift = None, None`). -/
def processDoc (bs : List Block) : List RawRecord :=
  (foldTexts ⟨none, none⟩ (docTexts bs)).2

/-- The check `file.lower().endswith(".docx")`. -/
def isDocxName (n : String) : Bool := listSuffixOf ['.', 'd', 'o', 'c', 'x'] (lowerList n)

/-- The whole collection loop of `load_data`: files in listing order,
non-docx names silently skipped, and an unreadable document raising out
of the loop (losing every record gathered so far). -/
def collectRecords : List DocFile → Except String (List RawRecord)
  | [] => .ok []
  | f :: fs =>
    if isDocxName f.name then
      match f.content with
      | .unreadable => .error ("cannot open document " ++ f.name)
      | .valid bs => (collectRecords fs).map (fun rest => processDoc bs ++ rest)
    else collectRecords fs

/- ### The dataframe stages of load_data -/

/-- A row of `raw_df` after `pd.to_datetime`: the date column now holds
a timestamp or NaT. -/
structure DatedRecord where
  date : Option Date
  shift : Option String
  raw_text : String
deriving Repr, DecidableEq

def toDated (r : RawRecord) : DatedRecord := ⟨r.date.bind parseDate, r.shift, r.raw_text⟩

def rawDf (rs : List RawRecord) : List DatedRecord := rs.map toDated

/-- The `dropna` filter: a row survives when both date and shift are
present (its text never is missing). -/
def survives (r : DatedRecord) : Bool := r.date.isSome && r.shift.isSome

structure PumpRecord where
  date : Option Date
  shift : Option String
  pump : String
  raw_text : String
deriving Repr, DecidableEq

/-- One PumpRecord per distinct pump spelling of each surviving row. -/
def explode : List DatedRecord → List PumpRecord
  | [] => []
  | r :: rs =>
    (pumpsOf r.raw_text).map (fun p => ⟨r.date, r.shift, normalize_pump p, r.raw_text⟩)
      ++ explode rs

/- ### groupby on (date, shift, pump): sorted unique keys, texts of a
group joined by " | " in row order -/

abbrev Key := Option Date × Option String × String

def keyOfP (p : PumpRecord) : Key := (p.date, p.shift, p.pump)

def dateLtB (d1 d2 : Date) : Bool :=
  d1.year < d2.year ||
    (d1.year = d2.year &&
      (d1.month < d2.month || (d1.month = d2.month && d1.day < d2.day)))

def lexLtB : List Char → List Char → Bool
  | [], [] => false
  | [], _ :: _ => true
  | _ :: _, [] => false
  | a :: as, b :: bs => if a < b then true else if a = b then lexLtB as bs else false

def strLtB (s1 s2 : String) : Bool := lexLtB s1.toList s2.toList

def optDateLtB : Option Date → Option Date → Bool
  | none, none => false
  | none, some _ => true
  | some _, none => false
  | some a, some b => dateLtB a b

def optStrLtB : Option String → Option String → Bool
  | none, none => false
  | none, some _ => true
  | some _, none => false
  | some a, some b => strLtB a b

def keyLtB (k1 k2 : Key) : Bool :=
  optDateLtB k1.1 k2.1 ||
    (k1.1 = k2.1 &&
      (optStrLtB k1.2.1 k2.2.1 || (k1.2.1 = k2.2.1 && strLtB k1.2.2 k2.2.2)))

def insKey (x : Key) : List Key → List Key
  | [] => [x]
  | y :: ys => if keyLtB x y then x :: y :: ys else y :: insKey x ys

def sortKeys : List Key → List Key
  | [] => []
  | k :: ks => insKey k (sortKeys ks)

/-- The group keys of the grouped frame, in the ascending order pandas
emits them. -/
def groupKeys (prs : List PumpRecord) : List Key :=
  sortKeys (dedupFirst (prs.map keyOfP))

/-- The aggregated text of one group: the member texts joined by
" | " in the order the underlying rows were encountered. -/
def groupConcat (prs : List PumpRecord) (k : Key) : String :=
  String.intercalate " | "
    ((prs.filter (fun p => decide (keyOfP p = k))).map (fun p => p.raw_text))

/-- `load_data` itself.  Its two failure points are real raises of the
Python: with no record at all, `raw_df["date"]` is a missing column of
an empty frame, and with no pump record, `groupby` is asked for missing
columns; both KeyError.  The returned rows are (key, text) pairs whose
text is already normalized (line `pump_df["raw_text"] = ... apply`). -/
def load_data (files : List DocFile) : Except String (List (Key × String)) :=
  match collectRecords files with
  | .error e => .error e
  | .ok all_records =>
    if all_records.isEmpty then .error "KeyError: date (empty DataFrame)"
    else if (explode ((rawDf all_records).filter survives)).isEmpty then
      .error "KeyError: date (groupby on empty DataFrame)"
    else
      .ok ((groupKeys (explode ((rawDf all_records).filter survives))).map
        (fun k =>
          (k, normalize_text (groupConcat (explode ((rawDf all_records).filter survives)) k))))

/- ### Tagging (module level of app.py, applied to the returned table) -/

def FAILURE_TYPES : List (String × List String) :=
  [("Seal_Issue", ["seal", "mechanical seal"]),
   ("Low_Level", ["low level"]),
   ("Pressure_Issue", ["low pressure"]),
   ("Trip_Issue", ["trip", "tripped"]),
   ("Flow_Issue", ["min-flow", "cavitation", "kickback"])]

/-- One category indicator: `df["raw_text"].str.contains("|".join(words))`
on the already-normalized text — the keyword lists contain no regex
metacharacter beyond a literal hyphen, so the alternation is exactly a
substring test for any of the words. -/
def containsAny (t : String) (ws : List String) : Bool :=
  ws.any (fun w => listInfixOf w.toList t.toList)

def tagsOf (t : String) : List Nat :=
  FAILURE_TYPES.map (fun p => if containsAny t p.2 then 1 else 0)

def monthName : Nat → String
  | 1 => "January" | 2 => "February" | 3 => "March" | 4 => "April"
  | 5 => "May" | 6 => "June" | 7 => "July" | 8 => "August"
  | 9 => "September" | 10 => "October" | 11 => "November" | 12 => "December"
  | _ => ""

/-- The derived month label `df["date"].dt.strftime("%B-%Y")`. -/
def monthLabel : Option Date → String
  | some d => monthName d.month ++ "-" ++ toString d.year
  | none => "NaT"

/-- A row of the final table. -/
structure OutRow where
  date : Option Date
  shift : Option String
  pump : String
  raw_text : String
  tags : List Nat
  total : Nat
  month : String
deriving Repr, DecidableEq

def keyOf (r : OutRow) : Key := (r.date, r.shift, r.pump)

def tagRowPair (p : Key × String) : OutRow :=
  ⟨p.1.1, p.1.2.1, p.1.2.2, p.2, tagsOf p.2, (tagsOf p.2).sum, monthLabel p.1.1⟩

/-- The full pipeline: `load_data` followed by the module-level tagging
and month-label columns. -/
def pipeline (files : List DocFile) : Except String (List OutRow) :=
  (load_data files).map (fun rows => rows.map tagRowPair)

/- ### Totalized views of the intermediate stages, for stating the
grouping and filtering laws about a successful run -/

def recordsOf (files : List DocFile) : List RawRecord :=
  match collectRecords files with
  | .ok rs => rs
  | .error _ => []

def survRecords (files : List DocFile) : List DatedRecord :=
  (rawDf (recordsOf files)).filter survives

def pumpRecordsOf (files : List DocFile) : List PumpRecord :=
  explode (survRecords files)

/- ### Lemmas about the shift capture -/

theorem matchLitCap_toLower (pat : List Char) (cs cap rest : List Char)
    (h : matchLitCap pat cs = some (cap, rest)) : cap.map Char.toLower = pat := by
  induction pat generalizing cs cap rest with
  | nil =>
    simp only [matchLitCap, Option.some.injEq, Prod.mk.injEq] at h
    simp [← h.1]
  | cons l ls ih =>
    cases cs with
    | nil => simp [matchLitCap] at h
    | cons c cs' =>
      simp only [matchLitCap] at h
      by_cases hc : c.toLower = l
      · rw [if_pos hc] at h
        cases hm : matchLitCap ls cs' with
        | none => rw [hm] at h; exact absurd h (by simp)
        | some pr =>
          obtain ⟨cap', rest'⟩ := pr
          rw [hm] at h
          simp only [Option.some.injEq, Prod.mk.injEq] at h
          rw [← h.1]
          simp [ih cs' cap' rest' hm, hc]
      · rw [if_neg hc] at h; exact absurd h (by simp)

theorem shiftWord_toLower (cs cap : List Char) (h : shiftWord cs = some cap) :
    cap.map Char.toLower = ['d', 'a', 'y'] ∨ cap.map Char.toLower = ['d', 'a', 'y', 's'] ∨
      cap.map Char.toLower = ['n', 'i', 'g', 'h', 't'] ∨
      cap.map Char.toLower = ['n', 'i', 'g', 'h', 't', 's'] := by
  unfold shiftWord at h
  cases hd : matchLitCap ['d', 'a', 'y'] cs with
  | some pr =>
    obtain ⟨cap0, rest⟩ := pr
    rw [hd] at h
    have hl := matchLitCap_toLower _ _ _ _ hd
    cases rest with
    | nil =>
      have h2 : some cap0 = some cap := h
      simp only [Option.some.injEq] at h2
      subst h2; exact Or.inl hl
    | cons c cs'' =>
      have h2 : (if c.toLower = 's' then some (cap0 ++ [c]) else some cap0) = some cap := h
      by_cases hc : c.toLower = 's'
      · rw [if_pos hc] at h2
        simp only [Option.some.injEq] at h2
        subst h2
        right; left; simp [hl, hc]
      · rw [if_neg hc] at h2
        simp only [Option.some.injEq] at h2
        subst h2; exact Or.inl hl
  | none =>
    rw [hd] at h
    cases hn : matchLitCap ['n', 'i', 'g', 'h', 't'] cs with
    | some pr =>
      obtain ⟨cap0, rest⟩ := pr
      rw [hn] at h
      have hl := matchLitCap_toLower _ _ _ _ hn
      cases rest with
      | nil =>
        have h2 : some cap0 = some cap := h
        simp only [Option.some.injEq] at h2
        subst h2; right; right; exact Or.inl hl
      | cons c cs'' =>
        have h2 : (if c.toLower = 's' then some (cap0 ++ [c]) else some cap0) = some cap := h
        by_cases hc : c.toLower = 's'
        · rw [if_pos hc] at h2
          simp only [Option.some.injEq] at h2
          subst h2
          right; right; right; simp [hl, hc]
        · rw [if_neg hc] at h2
          simp only [Option.some.injEq] at h2
          subst h2; right; right; exact Or.inl hl
    | none => rw [hn] at h; exact absurd h (by simp)

theorem normalize_shift_of_shiftWord (cs cap : List Char) (h : shiftWord cs = some cap) :
    (normalize_shift (String.mk cap)).isSome = true := by
  have hcap : lowerList (String.mk cap) = cap.map Char.toLower := rfl
  rcases shiftWord_toLower cs cap h with h1 | h1 | h1 | h1 <;>
    simp [normalize_shift, containsLC, hcap, h1] <;> decide

theorem searchShift_shiftWord (cs cap : List Char) (h : searchShift cs = some cap) :
    ∃ cs', shiftWord cs' = some cap := by
  induction cs with
  | nil => simp [searchShift] at h
  | cons c cs' ih =>
    simp only [searchShift] at h
    cases ha : shiftAt (c :: cs') with
    | some cap0 =>
      rw [ha] at h
      simp only [Option.some.injEq] at h
      subst h
      unfold shiftAt at ha
      cases hm : matchLitCap ['s', 'h', 'i', 'f', 't'] (c :: cs') with
      | none => rw [hm] at ha; exact absurd ha (by simp)
      | some pr =>
        obtain ⟨cap1, r1⟩ := pr
        rw [hm] at ha
        exact ⟨_, ha⟩
    | none => rw [ha] at h; exact ih h

theorem searchShiftStr_isSome (t : String) :
    (searchShiftStr t).all (fun cap => (normalize_shift cap).isSome) = true := by
  unfold searchShiftStr
  cases hs : searchShift t.toList with
  | none => rfl
  | some cap =>
    obtain ⟨cs', h⟩ := searchShift_shiftWord _ _ hs
    simpa using normalize_shift_of_shiftWord cs' cap h

/- ### Step and fold laws of the context tracker -/

theorem stepText_date (c : Ctx) (t : String) :
    (stepText c t).1.date =
      (match searchDateStr t with
       | some cap => some cap
       | none => c.date) := by
  unfold stepText
  cases searchDateStr t <;> cases searchShiftStr t <;> rfl

theorem stepText_shift (c : Ctx) (t : String) :
    (stepText c t).1.shift =
      (match searchShiftStr t with
       | some cap => normalize_shift cap
       | none => c.shift) := by
  unfold stepText
  cases searchDateStr t <;> cases searchShiftStr t <;> rfl

theorem stepText_record (c : Ctx) (t : String) :
    (stepText c t).2 = ⟨(stepText c t).1.date, (stepText c t).1.shift, t⟩ := by
  unfold stepText
  cases searchDateStr t <;> cases searchShiftStr t <;> rfl

theorem foldTexts_raw_texts (c : Ctx) (ts : List String) :
    ((foldTexts c ts).2).map RawRecord.raw_text = ts := by
  induction ts generalizing c with
  | nil => rfl
  | cons t ts ih =>
    simp only [foldTexts, List.map]
    rw [ih]
    have : (stepText c t).2.raw_text = t := by
      rw [stepText_record]
    rw [this]

theorem collectRecords_cons_valid (n : String) (bs : List Block) (fs : List DocFile)
    (h : isDocxName n = true) :
    collectRecords (⟨n, .valid bs⟩ :: fs) =
      (collectRecords fs).map (fun rest => processDoc bs ++ rest) := by
  conv_lhs => rw [collectRecords]
  rw [if_pos h]

/-- C5: the context tracker invariant.  For every text unit processed:
the date field changes exactly to the capture when the date matcher
matches and is untouched otherwise; the shift field changes exactly to
the normalized capture when the shift matcher matches (and that
normalization always yields a known value, never clearing the field)
and is untouched otherwise; the emitted record carries the context in
effect after the block together with the block's text; a fold over a
list of texts emits exactly one record per text, in order; each
document is processed from the fresh context (unknown, unknown); and a
batch of two documents yields exactly the concatenation of the two
independent per-document runs — context never carries across
documents. -/
theorem c5_context_tracker (c : Ctx) (t : String) (ts : List String) (bs bs1 bs2 : List Block) :
    ((stepText c t).1.date =
      (match searchDateStr t with
       | some cap => some cap
       | none => c.date)) ∧
    ((stepText c t).1.shift =
      (match searchShiftStr t with
       | some cap => normalize_shift cap
       | none => c.shift)) ∧
    ((searchShiftStr t).all (fun cap => (normalize_shift cap).isSome) = true) ∧
    ((stepText c t).2 = ⟨(stepText c t).1.date, (stepText c t).1.shift, t⟩) ∧
    (((foldTexts c ts).2).map RawRecord.raw_text = ts) ∧
    (processDoc bs = (foldTexts ⟨none, none⟩ (docTexts bs)).2) ∧
    (collectRecords [⟨"a.docx", .valid bs1⟩, ⟨"b.docx", .valid bs2⟩] =
      .ok (processDoc bs1 ++ processDoc bs2)) := by
  refine ⟨stepText_date c t, stepText_shift c t, searchShiftStr_isSome t,
    stepText_record c t, foldTexts_raw_texts c ts, rfl, ?_⟩
  rw [collectRecords_cons_valid _ _ _ (by decide), collectRecords_cons_valid _ _ _ (by decide)]
  simp [collectRecords, Except.map]

/- ### Order lemmas for the group keys -/

theorem lexLtB_trichotomy (as bs : List Char) :
    lexLtB as bs = true ∨ as = bs ∨ lexLtB bs as = true := by
  induction as generalizing bs with
  | nil =>
    cases bs with
    | nil => right; left; rfl
    | cons b bs => left; rfl
  | cons a as ih =>
    cases bs with
    | nil => right; right; rfl
    | cons b bs =>
      rcases lt_trichotomy a b with hlt | heq | hgt
      · left; simp [lexLtB, hlt]
      · subst heq
        rcases ih bs with h | h | h
        · left; simp [lexLtB, h]
        · right; left; rw [h]
        · right; right; simp [lexLtB, h]
      · right; right; simp [lexLtB, hgt]

theorem strLtB_trichotomy (s1 s2 : String) :
    strLtB s1 s2 = true ∨ s1 = s2 ∨ strLtB s2 s1 = true := by
  rcases lexLtB_trichotomy s1.toList s2.toList with h | h | h
  · left; exact h
  · right; left
    cases s1; cases s2
    exact congrArg String.mk h
  · right; right; exact h

theorem dateLtB_trichotomy (d1 d2 : Date) :
    dateLtB d1 d2 = true ∨ d1 = d2 ∨ dateLtB d2 d1 = true := by
  obtain ⟨y1, m1, a1⟩ := d1
  obtain ⟨y2, m2, a2⟩ := d2
  rcases Nat.lt_trichotomy y1 y2 with h | h | h
  · left; simp [dateLtB, h]
  · subst h
    rcases Nat.lt_trichotomy m1 m2 with h2 | h2 | h2
    · left; simp [dateLtB, h2]
    · subst h2
      rcases Nat.lt_trichotomy a1 a2 with h3 | h3 | h3
      · left; simp [dateLtB, h3]
      · subst h3; right; left; rfl
      · right; right; simp [dateLtB, h3]
    · right; right; simp [dateLtB, h2]
  · right; right; simp [dateLtB, h]

theorem optDateLtB_trichotomy (d1 d2 : Option Date) :
    optDateLtB d1 d2 = true ∨ d1 = d2 ∨ optDateLtB d2 d1 = true := by
  cases d1 with
  | none =>
    cases d2 with
    | none => right; left; rfl
    | some b => left; rfl
  | some a =>
    cases d2 with
    | none => right; right; rfl
    | some b =>
      rcases dateLtB_trichotomy a b with h | h | h
      · left; exact h
      · right; left; rw [h]
      · right; right; exact h

theorem optStrLtB_trichotomy (s1 s2 : Option String) :
    optStrLtB s1 s2 = true ∨ s1 = s2 ∨ optStrLtB s2 s1 = true := by
  cases s1 with
  | none =>
    cases s2 with
    | none => right; left; rfl
    | some b => left; rfl
  | some a =>
    cases s2 with
    | none => right; right; rfl
    | some b =>
      rcases strLtB_trichotomy a b with h | h | h
      · left; exact h
      · right; left; rw [h]
      · right; right; exact h

theorem keyLtB_trichotomy (k1 k2 : Key) :
    keyLtB k1 k2 = true ∨ k1 = k2 ∨ keyLtB k2 k1 = true := by
  obtain ⟨d1, s1, p1⟩ := k1
  obtain ⟨d2, s2, p2⟩ := k2
  rcases optDateLtB_trichotomy d1 d2 with h | h | h
  · left; simp [keyLtB, h]
  · subst h
    rcases optStrLtB_trichotomy s1 s2 with h2 | h2 | h2
    · left; simp [keyLtB, h2]
    · subst h2
      rcases strLtB_trichotomy p1 p2 with h3 | h3 | h3
      · left; simp [keyLtB, h3]
      · subst h3; right; left; rfl
      · right; right; simp [keyLtB, h3]
    · right; right; simp [keyLtB, h2]
  · right; right; simp [keyLtB, h]

/- ### Insertion and deduplication lemmas -/

theorem mem_insKey (x z : Key) (l : List Key) : z ∈ insKey x l ↔ z = x ∨ z ∈ l := by
  induction l with
  | nil => simp [insKey]
  | cons y ys ih =>
    by_cases h : keyLtB x y = true
    · simp [insKey, h, List.mem_cons]
    · simp only [insKey, if_neg h, List.mem_cons, ih]
      tauto

theorem nodup_insKey (x : Key) (l : List Key) (hx : x ∉ l) (h : l.Nodup) :
    (insKey x l).Nodup := by
  induction l with
  | nil => simp [insKey]
  | cons y ys ih =>
    rw [List.nodup_cons] at h
    simp only [List.mem_cons] at hx
    push_neg at hx
    by_cases hk : keyLtB x y = true
    · rw [insKey, if_pos hk, List.nodup_cons, List.nodup_cons]
      refine ⟨?_, h.1, h.2⟩
      simp only [List.mem_cons]
      push_neg
      exact hx
    · rw [insKey, if_neg hk, List.nodup_cons]
      constructor
      · intro hy
        rcases (mem_insKey x y ys).mp hy with h1 | h1
        · exact hx.1 h1.symm
        · exact h.1 h1
      · exact ih hx.2 h.2

theorem chain'_insKey (x : Key) (l : List Key) (hx : x ∉ l)
    (h : l.Chain' (fun a b => keyLtB a b = true)) :
    (insKey x l).Chain' (fun a b => keyLtB a b = true) := by
  induction l with
  | nil => simp [insKey]
  | cons y ys ih =>
    simp only [List.mem_cons] at hx
    push_neg at hx
    by_cases hk : keyLtB x y = true
    · rw [insKey, if_pos hk]
      exact List.chain'_cons.mpr ⟨hk, h⟩
    · rw [insKey, if_neg hk]
      have hyx : keyLtB y x = true := by
        rcases keyLtB_trichotomy x y with h1 | h1 | h1
        · exact absurd h1 hk
        · exact absurd h1 hx.1
        · exact h1
      have hch : (insKey x ys).Chain' (fun a b => keyLtB a b = true) := ih hx.2 h.tail
      rw [List.chain'_cons']
      refine ⟨?_, hch⟩
      intro z hz
      cases ys with
      | nil =>
        simp [insKey] at hz
        subst hz; exact hyx
      | cons w ws =>
        by_cases hk2 : keyLtB x w = true
        · rw [insKey, if_pos hk2] at hz
          simp at hz
          subst hz; exact hyx
        · rw [insKey, if_neg hk2] at hz
          simp at hz
          subst hz
          exact (List.chain'_cons.mp h).1

theorem mem_sortKeys (z : Key) (l : List Key) : z ∈ sortKeys l ↔ z ∈ l := by
  induction l with
  | nil => simp [sortKeys]
  | cons k ks ih => simp [sortKeys, mem_insKey, ih]

theorem nodup_sortKeys (l : List Key) (h : l.Nodup) : (sortKeys l).Nodup := by
  induction l with
  | nil => simp [sortKeys]
  | cons k ks ih =>
    rw [List.nodup_cons] at h
    exact nodup_insKey k (sortKeys ks) (fun hm => h.1 ((mem_sortKeys k ks).mp hm)) (ih h.2)

theorem chain'_sortKeys (l : List Key) (h : l.Nodup) :
    (sortKeys l).Chain' (fun a b => keyLtB a b = true) := by
  induction l with
  | nil => simp [sortKeys]
  | cons k ks ih =>
    rw [List.nodup_cons] at h
    exact chain'_insKey k (sortKeys ks) (fun hm => h.1 ((mem_sortKeys k ks).mp hm)) (ih h.2)

theorem mem_dedupFirst [DecidableEq α] (z : α) (l : List α) :
    z ∈ dedupFirst l ↔ z ∈ l := by
  induction l with
  | nil => simp [dedupFirst]
  | cons a as ih =>
    simp only [dedupFirst, List.mem_cons]
    constructor
    · rintro (rfl | hz)
      · exact Or.inl rfl
      · right; rw [← ih]; exact (List.mem_filter.mp hz).1
    · rintro (rfl | hz)
      · exact Or.inl rfl
      · by_cases hza : z = a
        · exact Or.inl hza
        · right
          exact List.mem_filter.mpr ⟨ih.mpr hz, by simp [hza]⟩

theorem nodup_dedupFirst [DecidableEq α] (l : List α) : (dedupFirst l).Nodup := by
  induction l with
  | nil => simp [dedupFirst]
  | cons a as ih =>
    rw [dedupFirst, List.nodup_cons]
    constructor
    · intro hmem
      have := (List.mem_filter.mp hmem).2
      simp at this
    · exact ih.filter _

/- ### Decomposition of a successful run -/

theorem load_data_ok (files : List DocFile) (rows : List (Key × String))
    (h : load_data files = .ok rows) :
    rows = (groupKeys (pumpRecordsOf files)).map
      (fun k => (k, normalize_text (groupConcat (pumpRecordsOf files) k))) := by
  unfold load_data at h
  cases hc : collectRecords files with
  | error e => rw [hc] at h; exact absurd h (by simp)
  | ok recs =>
    rw [hc] at h
    have hrec : pumpRecordsOf files = explode ((rawDf recs).filter survives) := by
      unfold pumpRecordsOf survRecords recordsOf
      rw [hc]
    have h1 :
        (if recs.isEmpty then
            (.error "KeyError: date (empty DataFrame)" : Except String (List (Key × String)))
          else if (explode ((rawDf recs).filter survives)).isEmpty then
            .error "KeyError: date (groupby on empty DataFrame)"
          else
            .ok ((groupKeys (explode ((rawDf recs).filter survives))).map
              (fun k =>
                (k, normalize_text (groupConcat (explode ((rawDf recs).filter survives)) k))))) =
          .ok rows := h
    by_cases he : recs.isEmpty
    · rw [if_pos he] at h1; exact absurd h1 (by simp)
    · rw [if_neg he] at h1
      by_cases hp : (explode ((rawDf recs).filter survives)).isEmpty
      · rw [if_pos hp] at h1; exact absurd h1 (by simp)
      · rw [if_neg hp] at h1
        injection h1 with h2
        rw [← h2, hrec]

theorem pipeline_ok (files : List DocFile) (rows : List OutRow)
    (h : pipeline files = .ok rows) :
    rows = (groupKeys (pumpRecordsOf files)).map
      (fun k => tagRowPair (k, normalize_text (groupConcat (pumpRecordsOf files) k))) := by
  unfold pipeline at h
  cases hl : load_data files with
  | error e => rw [hl] at h; exact absurd h (by simp [Except.map])
  | ok pairs =>
    rw [hl] at h
    have h2 : Except.ok (pairs.map tagRowPair) = Except.ok rows := h
    injection h2 with h3
    rw [← h3, load_data_ok files pairs hl, List.map_map]
    rfl

theorem keyOf_tagRowPair (k : Key) (s : String) : keyOf (tagRowPair (k, s)) = k := by
  obtain ⟨d, sh, p⟩ := k
  rfl

theorem explode_mem (p : PumpRecord) (rs : List DatedRecord) (h : p ∈ explode rs) :
    ∃ r ∈ rs, p.date = r.date ∧ p.shift = r.shift := by
  induction rs with
  | nil => simp [explode] at h
  | cons r rs ih =>
    simp only [explode, List.mem_append] at h
    rcases h with h | h
    · rcases List.mem_map.mp h with ⟨q, _, rfl⟩
      exact ⟨r, List.mem_cons_self r rs, rfl, rfl⟩
    · rcases ih h with ⟨r2, h2, h3⟩
      exact ⟨r2, List.mem_cons_of_mem r h2, h3⟩

/- ### Concrete inputs used by the claim theorems and witnesses -/

def exampleFiles1 : List DocFile :=
  [⟨"report.docx", .valid [.para "Date: 12-05-2024 Shift: Day P-12 mechanical seal issue"]⟩]

def exampleRow1 : OutRow :=
  ⟨some ⟨2024, 12, 5⟩, some "Day", "P12",
    "date: 12-05-2024 shift: day p-12 mechanical seal issue", [1, 0, 0, 0, 0], 1,
    "December-2024"⟩

def mergeFiles : List DocFile :=
  [⟨"merge.docx",
    .valid
      [.para "Date: 1-2-2024 Shift: Day", .para "P-12 Mechanical Seal",
        .para "P-12 Low Pressure"]⟩]

def mergeRow : OutRow :=
  ⟨some ⟨2024, 1, 2⟩, some "Day", "P12", "p-12 mechanical seal | p-12 low pressure",
    [1, 0, 1, 0, 0], 2, "January-2024"⟩

def twoRowFiles : List DocFile :=
  [⟨"two.docx", .valid [.para "Date: 1-2-2024 Shift: Day P-2 trip", .para "P-1 seal leak"]⟩]

def twoRows : List OutRow :=
  [⟨some ⟨2024, 1, 2⟩, some "Day", "P1", "p-1 seal leak", [1, 0, 0, 0, 0], 1, "January-2024"⟩,
   ⟨some ⟨2024, 1, 2⟩, some "Day", "P2", "date: 1-2-2024 shift: day p-2 trip",
     [0, 0, 0, 1, 0], 1, "January-2024"⟩]

def noSurvivorFiles : List DocFile := [⟨"empty.docx", .valid [.para "P-12 seal leak"]⟩]

def corruptBatch : List DocFile :=
  [⟨"good.docx", .valid [.para "Date: 1-2-2024 Shift: Day P-3 trip"]⟩,
   ⟨"bad.docx", .unreadable⟩]

/- ### Claim C1 -/

/-- C1 counterexample: on the single block
"Date: 12-05-2024 Shift: Day P-12 mechanical seal issue" the pipeline
produces exactly one row, but its date is 2024-12-05 (December 5), not
the 2024-05-12 the claim states: pandas parses the ambiguous token
"12-05-2024" month-first. -/
theorem c1_counterexample :
    pipeline exampleFiles1 = .ok [exampleRow1] ∧
      exampleRow1.date ≠ some ⟨2024, 5, 12⟩ :=
  ⟨by rfl, by decide⟩

/-- C1 as amended: the single block
"Date: 12-05-2024 Shift: Day P-12 mechanical seal issue" in one
document yields exactly one output row, with date 2024-12-05 (the
month-first reading of the captured token), shift Day, pump P12,
Seal_Issue 1, every other indicator 0 and Total_Failure 1 (the
indicator columns are listed in the order of FAILURE_TYPES). -/
theorem c1_end_to_end :
    pipeline exampleFiles1 =
      .ok [⟨some ⟨2024, 12, 5⟩, some "Day", "P12",
        "date: 12-05-2024 shift: day p-12 mechanical seal issue", [1, 0, 0, 0, 0], 1,
        "December-2024"⟩] := by
  rfl

/- ### Claim C2 -/

/-- C2 counterexample: a block whose date capture "99-99-2024" does not
parse does NOT leave the context date unchanged — the previously
established date "01-05-2024" is overwritten by the unparsable
capture. -/
theorem c2_counterexample :
    searchDateStr "Date: 99-99-2024" = some "99-99-2024" ∧
      parseDate "99-99-2024" = none ∧
      (stepText ⟨some "01-05-2024", some "Day"⟩ "Date: 99-99-2024").1.date ≠
        some "01-05-2024" ∧
      (stepText ⟨some "01-05-2024", some "Day"⟩ "Date: 99-99-2024").1.date =
        some "99-99-2024" :=
  ⟨by rfl, by rfl, by decide, by rfl⟩

/-- C2 as amended: when the date matcher captures a token that does not
parse into a calendar date, the context date is overwritten with that
raw capture (it is not left unchanged), and the failure is not fatal:
the block's record is emitted as usual but its date coerces to missing,
so it is silently dropped by the filter; this persists until a later
block supplies a new capture. -/
theorem c2_unparsable_date_overwrites (c : Ctx) (t : String) (cap : String)
    (hcap : searchDateStr t = some cap) (hparse : parseDate cap = none) :
    (stepText c t).1.date = some cap ∧
      survives (toDated (stepText c t).2) = false := by
  have h1 : (stepText c t).1.date = some cap := by
    rw [stepText_date, hcap]
  refine ⟨h1, ?_⟩
  have h2 : (stepText c t).2.date = some cap := by
    rw [stepText_record]
    exact h1
  unfold toDated survives
  rw [h2]
  simp [hparse]

/-- Witness for C2 at the block "Date: 99-99-2024" processed from the
fresh context. -/
theorem c2_witness :
    searchDateStr "Date: 99-99-2024" = some "99-99-2024" ∧
      parseDate "99-99-2024" = none ∧
      ((stepText ⟨none, none⟩ "Date: 99-99-2024").1.date = some "99-99-2024" ∧
        survives (toDated (stepText ⟨none, none⟩ "Date: 99-99-2024").2) = false) :=
  ⟨by rfl, by rfl,
    c2_unparsable_date_overwrites ⟨none, none⟩ "Date: 99-99-2024" "99-99-2024"
      (by rfl) (by rfl)⟩

/- ### Claim C3 -/

/-- C3: the code cannot deliver an empty final table.  A document set
whose records all lose date or shift reaches `groupby` with an empty
frame and raises KeyError, and a set with no record at all raises
KeyError already at the `raw_df["date"]` column access — instead of
completing normally with zero rows as the claim states. -/
theorem c3_no_survivor_raises :
    pipeline noSurvivorFiles = .error "KeyError: date (groupby on empty DataFrame)" ∧
      pipeline [] = .error "KeyError: date (empty DataFrame)" :=
  ⟨by rfl, by rfl⟩

/- ### Claim C4 -/

/-- C4: an unreadable document aborts the whole batch.  `Document(...)`
is called with no exception handling, so the error propagates out of
`load_data`: the readable document processed before it yields nothing,
and no per-document warning exists — contrary to the claim. -/
theorem c4_unreadable_aborts :
    pipeline corruptBatch = .error "cannot open document bad.docx" := by
  rfl

/- ### Claim C6 -/

/-- C6 counterexample: in the spec's own merge example the two blocks
"P-12 Mechanical Seal" and "P-12 Low Pressure" merge into one row, but
the row's raw_text is NOT the concatenation of the two PumpRecord
texts: `load_data` lower-cases and whitespace-collapses the joined
text before returning it. -/
theorem c6_counterexample :
    pipeline mergeFiles = .ok [mergeRow] ∧
      groupConcat (pumpRecordsOf mergeFiles) (keyOf mergeRow) =
        "P-12 Mechanical Seal | P-12 Low Pressure" ∧
      mergeRow.raw_text ≠ "P-12 Mechanical Seal | P-12 Low Pressure" :=
  ⟨by rfl, by rfl, by decide⟩

/-- C6 as amended: in the final table the key (date, shift, pump) is
unique — no two rows share it — and each row's raw_text is the
free-text normalization (lower-cased, whitespace runs collapsed) of
the concatenation, joined by " | ", of the texts of every PumpRecord
sharing that key, in the order the underlying blocks were encountered
(original document order, then document enumeration order). -/
theorem c6_merge_semantics (files : List DocFile) (rows : List OutRow)
    (hok : pipeline files = .ok rows) :
    (rows.map keyOf).Nodup ∧
      ∀ r ∈ rows,
        r.raw_text = normalize_text (groupConcat (pumpRecordsOf files) (keyOf r)) := by
  have hcomp :
      (keyOf ∘ fun k =>
          tagRowPair (k, normalize_text (groupConcat (pumpRecordsOf files) k))) = id := by
    funext k
    exact keyOf_tagRowPair k _
  constructor
  · rw [pipeline_ok files rows hok, List.map_map, hcomp, List.map_id]
    exact nodup_sortKeys _ (nodup_dedupFirst _)
  · intro r hr
    rw [pipeline_ok files rows hok] at hr
    rcases List.mem_map.mp hr with ⟨k, _, rfl⟩
    rw [keyOf_tagRowPair]
    rfl

/-- Witness for C6 on the merge example. -/
theorem c6_witness :
    ([mergeRow].map keyOf).Nodup ∧
      mergeRow.raw_text =
        normalize_text (groupConcat (pumpRecordsOf mergeFiles) (keyOf mergeRow)) :=
  ⟨(c6_merge_semantics mergeFiles [mergeRow] (by rfl)).1,
    (c6_merge_semantics mergeFiles [mergeRow] (by rfl)).2 mergeRow
      (List.mem_singleton.mpr rfl)⟩

/- ### Claim C7 -/

/-- C7: the filtering law.  Every row of a successfully produced output
table has a known (present) date and a known shift: records with an
unknown one were silently dropped before the pump explosion stage. -/
theorem c7_filtering_law (files : List DocFile) (rows : List OutRow) (r : OutRow)
    (hok : pipeline files = .ok rows) (hr : r ∈ rows) :
    r.date.isSome = true ∧ r.shift.isSome = true := by
  rw [pipeline_ok files rows hok] at hr
  rcases List.mem_map.mp hr with ⟨k, hk, rfl⟩
  have hk2 : k ∈ (pumpRecordsOf files).map keyOfP := by
    unfold groupKeys at hk
    exact (mem_dedupFirst k _).mp ((mem_sortKeys k _).mp hk)
  rcases List.mem_map.mp hk2 with ⟨p, hp, rfl⟩
  rcases explode_mem p (survRecords files) hp with ⟨dr, hdr, hd, hs⟩
  have hsurv : survives dr = true :=
    (List.mem_filter.mp (show dr ∈ (rawDf (recordsOf files)).filter survives from hdr)).2
  unfold survives at hsurv
  rw [Bool.and_eq_true] at hsurv
  constructor
  · show p.date.isSome = true
    rw [hd]
    exact hsurv.1
  · show p.shift.isSome = true
    rw [hs]
    exact hsurv.2

/-- Witness for C7 on the end-to-end example row. -/
theorem c7_witness :
    exampleRow1.date.isSome = true ∧ exampleRow1.shift.isSome = true :=
  c7_filtering_law exampleFiles1 [exampleRow1] exampleRow1 (by rfl)
    (List.mem_singleton.mpr rfl)

/- ### Claim C8 -/

/-- C8: the failure tagger.  Every row of a successfully produced
table carries, for each category of FAILURE_TYPES in order, the
indicator 1 exactly when the row's normalized text contains one of the
category's keywords as a substring and 0 otherwise, and Total_Failure
is the sum of the indicators (several may be 1 at once, and an all-zero
row is retained with total 0). -/
theorem c8_failure_tagger (files : List DocFile) (rows : List OutRow) (r : OutRow)
    (hok : pipeline files = .ok rows) (hr : r ∈ rows) :
    r.tags = FAILURE_TYPES.map (fun p => if containsAny r.raw_text p.2 then 1 else 0) ∧
      r.total = r.tags.sum := by
  rw [pipeline_ok files rows hok] at hr
  rcases List.mem_map.mp hr with ⟨k, _, rfl⟩
  exact ⟨rfl, rfl⟩

/-- Witness for C8 on the end-to-end example row. -/
theorem c8_witness :
    exampleRow1.tags =
      FAILURE_TYPES.map (fun p => if containsAny exampleRow1.raw_text p.2 then 1 else 0) ∧
      exampleRow1.total = exampleRow1.tags.sum :=
  c8_failure_tagger exampleFiles1 [exampleRow1] exampleRow1 (by rfl)
    (List.mem_singleton.mpr rfl)

/- ### Claim C9 -/

/-- C9: the shift tie-break.  For every token whose lower-cased form
contains both "day" and "night" as substrings, normalization returns
Day, because the "day" test is evaluated first. -/
theorem c9_shift_tie_break (s : String)
    (hd : containsLC s ['d', 'a', 'y'] = true)
    (hn : containsLC s ['n', 'i', 'g', 'h', 't'] = true) :
    normalize_shift s = some "Day" := by
  unfold normalize_shift
  rw [if_pos hd]

/-- Witness for C9 at the token "daynight". -/
theorem c9_witness :
    containsLC "daynight" ['d', 'a', 'y'] = true ∧
      containsLC "daynight" ['n', 'i', 'g', 'h', 't'] = true ∧
      normalize_shift "daynight" = some "Day" :=
  ⟨by decide, by decide, c9_shift_tie_break "daynight" (by decide) (by decide)⟩

/- ### Claim C10 -/

/-- C10: output ordering.  The rows of every successfully produced
table are strictly ascending in the key (date, shift, pump): grouping
emits the group keys sorted and tagging only appends columns. -/
theorem c10_output_sorted (files : List DocFile) (rows : List OutRow)
    (hok : pipeline files = .ok rows) :
    (rows.map keyOf).Chain' (fun a b => keyLtB a b = true) := by
  have hcomp :
      (keyOf ∘ fun k =>
          tagRowPair (k, normalize_text (groupConcat (pumpRecordsOf files) k))) = id := by
    funext k
    exact keyOf_tagRowPair k _
  rw [pipeline_ok files rows hok, List.map_map, hcomp, List.map_id]
  exact chain'_sortKeys _ (nodup_dedupFirst _)

/-- Witness for C10 on a two-row table (keys P1 before P2). -/
theorem c10_witness :
    pipeline twoRowFiles = .ok twoRows ∧
      (twoRows.map keyOf).Chain' (fun a b => keyLtB a b = true) :=
  ⟨by rfl, c10_output_sorted twoRowFiles twoRows (by rfl)⟩
